import Mathlib

/-!
Verification development for the palm-recognition subsystem
(`palm_recognition_system.py` / `palm_api.py`).

Python dictionaries are modelled as insertion-ordered association lists with
unique keys; Python/JSON values by the inductive `PyVal`; the per-identity
file store by an association list from file name to parsed-or-corrupt
contents; IEEE floats by exact numbers (`ℚ` for data that is stored and
formatted, `ℝ`/`EReal` where the code takes square roots or uses `inf`);
fallible operations (exceptions such as `ZeroDivisionError`, `KeyError`)
by `Option`.
-/

namespace Palm

/-- A Python `Dict[str, α]` in insertion order (keys are unique in a dict). -/
abbrev DV (α : Type) := List (String × α)

/-- First-match association lookup, i.e. Python `d[k]` / `k in d`. -/
def alook {α : Type} : List (String × α) → String → Option α
  | [], _ => none
  | (k, v) :: rest, key => if k = key then some v else alook rest key

/-- Keys of a dict, in insertion order (Python `d.keys()`). -/
def keysOf {α : Type} (d : DV α) : List String := d.map Prod.fst

/-! ## Knuckle distances (`PalmRecognitionSystem.calculate_knuckle_distances`) -/

/-- The field `self.knuckle_indices`: the 5 fixed landmark indices, in insertion order. -/
def knuckle_indices : List (String × Fin 21) :=
  [("wrist", 0), ("index_knuckle", 5), ("middle_knuckle", 9),
   ("ring_knuckle", 13), ("pinky_knuckle", 17)]

/-- Python `min` on two strings (code-point lexicographic, first on tie). -/
def pymin (a b : String) : String := if a ≤ b then a else b

/-- Python `max` on two strings (code-point lexicographic, last argument on tie
returns the first maximal, i.e. `a` when `a ≥ b`). -/
def pymax (a b : String) : String := if a ≥ b then a else b

/-- All ordered pairs `(l[i], l[j])` with `i < j`, in the order produced by the
nested loops `for i, n1 in enumerate(names): for j, n2 in enumerate(names[i+1:], i+1)`. -/
def pairsOf {α : Type} : List α → List (α × α)
  | [] => []
  | x :: xs => (xs.map (fun y => (x, y))) ++ pairsOf xs

/-- The method `calculate_knuckle_distances`: Euclidean distance for every unordered pair
of knuckle points, keyed `f"{min(n1,n2)}_{max(n1,n2)}"`; dict insertion follows
loop order (all 10 keys are distinct). -/
noncomputable def calculate_knuckle_distances (keypoints : Fin 21 → ℝ × ℝ) : DV ℝ :=
  (pairsOf (knuckle_indices.map (fun ni => (ni.1, keypoints ni.2)))).map
    (fun pc =>
      (pymin pc.1.1 pc.2.1 ++ "_" ++ pymax pc.1.1 pc.2.1,
       Real.sqrt ((pc.1.2.1 - pc.2.2.1) ^ 2 + (pc.1.2.2 - pc.2.2.2) ^ 2)))

/-- Python `min` over a nonempty list (`min(knuckle_confidences)`);
returns 0 on the empty list, which the code never passes. -/
def pyListMin : List ℝ → ℝ
  | [] => 0
  | x :: xs => xs.foldl min x

/-- The confidence gate of `detect_hand_keypoints` followed by
`calculate_knuckle_distances`: keypoints are rejected (`return None`) when
`min(knuckle_confidences) < 0.5`. -/
noncomputable def build_knuckle_distances (keypoints : Fin 21 → ℝ × ℝ)
    (conf : Fin 21 → ℝ) : Option (DV ℝ) :=
  if pyListMin (knuckle_indices.map (fun ni => conf ni.2)) < 1/2 then none
  else some (calculate_knuckle_distances keypoints)

/-! ## Normalization (`PalmRecognitionSystem.normalize_distances`)

`distances[key] / reference_distance` raises `ZeroDivisionError` (plain float)
or yields non-real IEEE values (`nan`/`inf`, numpy float) when the reference
distance is zero; both are modelled as `none`.  `list(distances.keys())[0]`
on an empty dict raises `IndexError`, also modelled as `none`. -/
def normalize_distances {α : Type} [Field α] [DecidableEq α] :
    DV α → Option (DV α)
  | [] => none
  | (k0, v0) :: rest =>
    let d : DV α := (k0, v0) :: rest
    let refKey := if (alook d "middle_knuckle_wrist").isSome
                  then "middle_knuckle_wrist" else k0
    match alook d refKey with
    | none => none
    | some refVal =>
      if refVal = 0 then none
      else some (d.map (fun e => (e.1, e.2 / refVal)))

/-! ## Signature generation (`PalmRecognitionSystem.generate_palm_signature`) -/

/-- Round a rational to the nearest integer, ties to even — the rounding
CPython's fixed-point float formatting performs. -/
def rne (x : ℚ) : ℤ :=
  let f := ⌊x⌋
  let r := x - f
  if r < 1/2 then f
  else if 1/2 < r then f + 1
  else if f % 2 = 0 then f else f + 1

/-- Zero-pad the decimal rendering of `n` on the left to 6 digits. -/
def pad6 (n : Nat) : String :=
  let s := toString n
  String.mk (List.replicate (6 - s.length) '0') ++ s

/-- Python `f"{v:.6f}"` on the exact value `v`: fixed-point with exactly six
decimal digits, correctly rounded (ties to even), with a sign whenever the
original value is negative (Python renders `-0.000000` for tiny negatives). -/
def format6 (v : ℚ) : String :=
  let r := rne (v * 1000000)
  let n := r.natAbs
  (if v < 0 then "-" else "") ++ toString (n / 1000000) ++ "." ++ pad6 (n % 1000000)

/-- One entry of the signature string: `f"{key}:{value:.6f}"`. -/
def renderEntry (e : String × ℚ) : String := e.1 ++ ":" ++ format6 e.2

/-- Python tuple comparison on `(key, value)` pairs, as used by
`sorted(distances.items())`. -/
def pairLe (a b : String × ℚ) : Prop := a.1 < b.1 ∨ (a.1 = b.1 ∧ a.2 ≤ b.2)

instance : DecidableRel pairLe := fun a b =>
  inferInstanceAs (Decidable (a.1 < b.1 ∨ (a.1 = b.1 ∧ a.2 ≤ b.2)))

/-- Python `"|".join(f"{key}:{value:.6f}" for key, value in sorted(distances.items()))`.
Python's `sorted` is a stable sort, modelled by insertion sort. -/
def distance_string (d : DV ℚ) : String :=
  String.intercalate "|" ((List.insertionSort pairLe d).map renderEntry)

/-- UTF-8 bytes of a string (Python `str.encode()`). -/
def strBytes (s : String) : List Nat := s.toUTF8.toList.map (fun b => b.toNat)

/-! ### SHA-256 (`hashlib.sha256`), over byte lists, words as `Nat mod 2^32` -/

/-- 32-bit right rotation. -/
def rotr32 (n x : Nat) : Nat := ((x >>> n) ||| (x <<< (32 - n))) % 4294967296

def shaCh (x y z : Nat) : Nat := (x &&& y) ^^^ ((x ^^^ 4294967295) &&& z)

def shaMaj (x y z : Nat) : Nat := (x &&& y) ^^^ (x &&& z) ^^^ (y &&& z)

def bsig0 (x : Nat) : Nat := rotr32 2 x ^^^ rotr32 13 x ^^^ rotr32 22 x

def bsig1 (x : Nat) : Nat := rotr32 6 x ^^^ rotr32 11 x ^^^ rotr32 25 x

def ssig0 (x : Nat) : Nat := rotr32 7 x ^^^ rotr32 18 x ^^^ (x >>> 3)

def ssig1 (x : Nat) : Nat := rotr32 17 x ^^^ rotr32 19 x ^^^ (x >>> 10)

def shaK : List Nat :=
  [1116352408, 1899447441, 3049323471, 3921009573, 961987163,
   1508970993, 2453635748, 2870763221, 3624381080, 310598401,
   607225278, 1426881987, 1925078388, 2162078206, 2614888103,
   3248222580, 3835390401, 4022224774, 264347078, 604807628,
   770255983, 1249150122, 1555081692, 1996064986, 2554220882,
   2821834349, 2952996808, 3210313671, 3336571891, 3584528711,
   113926993, 338241895, 666307205, 773529912, 1294757372,
   1396182291, 1695183700, 1986661051, 2177026350, 2456956037,
   2730485921, 2820302411, 3259730800, 3345764771, 3516065817,
   3600352804, 4094571909, 275423344, 430227734, 506948616,
   659060556, 883997877, 958139571, 1322822218, 1537002063,
   1747873779, 1955562222, 2024104815, 2227730452, 2361852424,
   2428436474, 2756734187, 3204031479, 3329325298]

def shaH0 : List Nat :=
  [1779033703, 3144134277, 1013904242, 2773480762,
   1359893119, 2600822924, 528734635, 1541459225]

/-- SHA-256 padding: `0x80`, zeros to 56 mod 64, 8-byte big-endian bit length. -/
def padMsg (msg : List Nat) : List Nat :=
  let L := msg.length
  let z := (119 - L % 64) % 64
  let bl := 8 * L
  msg ++ [0x80] ++ List.replicate z 0 ++
    [(bl >>> 56) % 256, (bl >>> 48) % 256, (bl >>> 40) % 256, (bl >>> 32) % 256,
     (bl >>> 24) % 256, (bl >>> 16) % 256, (bl >>> 8) % 256, bl % 256]

/-- Split a byte list into 64-byte chunks. -/
def chunk64 : List Nat → List (List Nat)
  | [] => []
  | x :: xs => ((x :: xs).take 64) :: chunk64 ((x :: xs).drop 64)
termination_by l => l.length
decreasing_by simp [List.length_drop]; omega

/-- Big-endian 4-byte groups to 32-bit words. -/
def toWords : List Nat → List Nat
  | a :: b :: c :: d :: rest =>
    ((a <<< 24) ||| (b <<< 16) ||| (c <<< 8) ||| d) :: toWords rest
  | _ => []

/-- Message-schedule extension of a 16-word block to 64 words. -/
def schedule (block : List Nat) : Array Nat :=
  (List.range 48).foldl
    (fun w j =>
      let i := 16 + j
      w.push ((ssig1 (w.getD (i - 2) 0) + w.getD (i - 7) 0 +
               ssig0 (w.getD (i - 15) 0) + w.getD (i - 16) 0) % 4294967296))
    block.toArray

/-- One compression round on the state `[a,b,c,d,e,f,g,h]`. -/
def roundStep (kw : Nat × Nat) (s : List Nat) : List Nat :=
  match s with
  | [a, b, c, d, e, f, g, h] =>
    let t1 := (h + bsig1 e + shaCh e f g + kw.1 + kw.2) % 4294967296
    let t2 := (bsig0 a + shaMaj a b c) % 4294967296
    [(t1 + t2) % 4294967296, a, b, c, (d + t1) % 4294967296, e, f, g]
  | other => other

/-- Process one 64-byte block against the running hash state. -/
def processBlock (h : List Nat) (block : List Nat) : List Nat :=
  let w := schedule (toWords block)
  let s := (shaK.zip w.toList).foldl (fun st kw => roundStep kw st) h
  List.zipWith (fun x y => (x + y) % 4294967296) h s

/-- The eight 32-bit words of the SHA-256 digest of a byte string. -/
def sha256words (msg : List Nat) : List Nat :=
  (chunk64 (padMsg msg)).foldl processBlock shaH0

def hexDigit (n : Nat) : Char :=
  if n < 10 then Char.ofNat (48 + n) else Char.ofNat (87 + n)

/-- Lowercase hex rendering of one 32-bit word. -/
def word8hex (w : Nat) : List Char :=
  (List.range 8).map (fun i => hexDigit ((w >>> (28 - 4 * i)) &&& 15))

/-- Python `hashlib.sha256(bytes).hexdigest()`: 64 lowercase hex characters. -/
def sha256hex (msg : List Nat) : String :=
  String.mk (((sha256words msg).map word8hex).flatten)

/-- The method `generate_palm_signature`:
`hashlib.sha256(distance_string.encode()).hexdigest()[:16]`. -/
def generate_palm_signature (d : DV ℚ) : String :=
  (sha256hex (strBytes (distance_string d))).take 16

/-- Modelled from the spec (§4.2 step 5, claim C2): sort the entries by key
ascending, render each as `"key:value"` with the value at exactly 6 decimal
digits, join with `"|"`, SHA-256 the byte string and keep the first 16 hex
characters. -/
def keyLe (a b : String × ℚ) : Prop := a.1 ≤ b.1

instance : DecidableRel keyLe := fun a b =>
  inferInstanceAs (Decidable (a.1 ≤ b.1))

/-- The signature as the specification words describe it. -/
def spec_signature (d : DV ℚ) : String :=
  (sha256hex (strBytes (String.intercalate "|"
    ((List.insertionSort keyLe d).map renderEntry)))).take 16

/-! ## Template distance (`PalmRecognitionSystem.calculate_template_distance`) -/

/-- Dictionary access `d[k]` on keys known to be present (default never used
within the common-key set). -/
def alookD (d : DV ℚ) (k : String) : ℚ := (alook d k).getD 0

/-- The method `calculate_template_distance`: Euclidean distance over
`set(d1.keys()) & set(d2.keys())`, `float('inf')` when no key is shared.
Set iteration order is immaterial since addition of the squares commutes. -/
noncomputable def calculate_template_distance (d1 d2 : DV ℚ) : EReal :=
  let common := ((keysOf d1).dedup).filter (fun k => k ∈ keysOf d2)
  if common = [] then ⊤
  else (((Real.sqrt ((common.map
    (fun k => ((alookD d1 k : ℝ) - (alookD d2 k : ℝ)) ^ 2)).sum)) : ℝ) : EReal)

/-- Modelled from the spec (§4.4, claim C7): Euclidean distance over the
intersection of the key sets, `+infinity` when the intersection is empty. -/
noncomputable def spec_intersection_dist (d1 d2 : DV ℚ) : EReal :=
  let s := (keysOf d1).toFinset ∩ (keysOf d2).toFinset
  if s = ∅ then ⊤
  else (((Real.sqrt (∑ k ∈ s,
    ((alookD d1 k : ℝ) - (alookD d2 k : ℝ)) ^ 2)) : ℝ) : EReal)

/-! ## The per-identity file store (`palm_api.py`)

A directory of `{phone}.json` files.  A file either fails `json.load`
(`corrupt`) or parses to a JSON value. -/

/-- A parsed Python/JSON value (`json.load` result). -/
inductive PyVal : Type
  | vnull : PyVal
  | vbool : Bool → PyVal
  | vnum : ℚ → PyVal
  | vstr : String → PyVal
  | varr : List PyVal → PyVal
  | vobj : List (String × PyVal) → PyVal

/-- Python truthiness of a parsed JSON value (`if existing_data:`). -/
def truthy : PyVal → Bool
  | .vnull => false
  | .vbool b => b
  | .vnum q => q != 0
  | .vstr s => s != ""
  | .varr l => !l.isEmpty
  | .vobj l => !l.isEmpty

/-- The two observable states of a stored `{phone}.json` file. -/
inductive StoredFile : Type
  | corrupt : StoredFile
  | parsed : PyVal → StoredFile

/-- The palm-data directory: file name (phone number) to contents. -/
abbrev StoreState := List (String × StoredFile)

/-- Python `os.remove` of `{p}.json`. -/
def removeFile (st : StoreState) (p : String) : StoreState :=
  st.filter (fun e => e.1 ≠ p)

/-- Writing `{p}.json` (`save_palm_data`): replace in place if the file
exists, create it otherwise. -/
def writeFile (st : StoreState) (p : String) (f : StoredFile) : StoreState :=
  if (alook st p).isSome
  then st.map (fun e => if e.1 = p then (p, f) else e)
  else st ++ [(p, f)]

/-- The function `load_palm_data`: missing file yields `None`; a `json.JSONDecodeError`
deletes the corrupt file and yields `None`; otherwise the parsed value is
returned (JSON `null` parses to Python `None` = `vnull`). -/
def load_palm_data (st : StoreState) (p : String) : PyVal × StoreState :=
  match alook st p with
  | none => (.vnull, st)
  | some .corrupt => (.vnull, removeFile st p)
  | some (.parsed v) => (v, st)

/-- The part of a palm template that `register_palm` persists. -/
structure Template : Type where
  signature : String
  normalized : DV ℚ
  raw : DV ℚ
deriving DecidableEq

/-- A persisted registration record. -/
structure Registration : Type where
  phoneNumber : String
  signature : String
  normalizedDistances : DV ℚ
  rawDistances : DV ℚ
  registeredAt : String
  lastUsed : String
deriving DecidableEq

/-- A distance dictionary as a JSON object. -/
def dvVal (d : DV ℚ) : List (String × PyVal) :=
  d.map (fun e => (e.1, PyVal.vnum e.2))

/-- The JSON object `register_palm` builds and `save_palm_data` writes,
with its exact field order. -/
def recordVal (r : Registration) : PyVal :=
  .vobj [("phoneNumber", .vstr r.phoneNumber),
         ("signature", .vstr r.signature),
         ("normalizedDistances", .vobj (dvVal r.normalizedDistances)),
         ("rawDistances", .vobj (dvVal r.rawDistances)),
         ("registeredAt", .vstr r.registeredAt),
         ("lastUsed", .vstr r.lastUsed)]

/-- Outcomes of `register_palm` (the image/model preconditions of the real
function are factored into the `Option Template` argument). -/
inductive RegResult : Type
  | alreadyRegistered : RegResult
  | templateFailed : RegResult
  | success : RegResult
deriving DecidableEq

/-- The function `register_palm` (`palm_api.py`): refuse when the loaded existing data is
truthy; otherwise build the record from the template with the current time
for both `registeredAt` and `lastUsed` and save it. -/
def register_palm (st : StoreState) (p : String) (tmpl : Option Template)
    (now : String) : RegResult × StoreState :=
  let ld := load_palm_data st p
  if truthy ld.1 then (.alreadyRegistered, ld.2)
  else
    match tmpl with
    | none => (.templateFailed, ld.2)
    | some t =>
      (.success, writeFile ld.2 p (.parsed (recordVal
        ⟨p, t.signature, t.normalized, t.raw, now, now⟩)))

/-- Dictionary field access `v[k]`; `none` models the `KeyError`/`TypeError`
the interpreter raises when the value is not an object or lacks the key. -/
def getField : PyVal → String → Option PyVal
  | .vobj l, k => alook l k
  | _, _ => none

/-- One row of `list_registered_palms`:
`(data['phoneNumber'], data['registeredAt'], data.get('lastUsed', data['registeredAt']))`. -/
def summaryOf (v : PyVal) : Option (PyVal × PyVal × PyVal) :=
  match getField v "phoneNumber", getField v "registeredAt" with
  | some ph, some ra => some (ph, ra, (getField v "lastUsed").getD ra)
  | _, _ => none

/-- The function `list_registered_palms`: scan every file, skip the ones that fail to
parse (`json.JSONDecodeError` is caught); a `KeyError` on a parsed file is
uncaught and aborts the listing (`none`). -/
def list_registered_palms : StoreState → Option (List (PyVal × PyVal × PyVal))
  | [] => some []
  | (_, .corrupt) :: rest => list_registered_palms rest
  | (_, .parsed v) :: rest =>
    match summaryOf v with
    | none => none
    | some s => (list_registered_palms rest).map (fun l => s :: l)

/-! ## Recognition (`recognize_palm` in `palm_api.py`)

The comparison loop is modelled at the `Registration` level: a file whose
JSON parses but is not a full registration record is modelled as a scan
fault (`none`), matching the uncaught `KeyError` the loop body raises when
the mandatory fields are missing. -/

/-- Read a numeric JSON object back as a distance dictionary. -/
def asDVq : List (String × PyVal) → Option (DV ℚ)
  | [] => some []
  | (k, .vnum q) :: rest => (asDVq rest).map (fun d => (k, q) :: d)
  | _ => none

/-- Recognize a stored JSON value as a registration record (inverse of
`recordVal`). -/
def asRegistration : PyVal → Option Registration
  | .vobj [("phoneNumber", .vstr p), ("signature", .vstr s),
           ("normalizedDistances", .vobj nd), ("rawDistances", .vobj rd),
           ("registeredAt", .vstr ra), ("lastUsed", .vstr lu)] =>
    match asDVq nd, asDVq rd with
    | some ndq, some rdq => some ⟨p, s, ndq, rdq, ra, lu⟩
    | _, _ => none
  | _ => none

/-- The comparison loop of `recognize_palm`: running best match and best
distance, updated on strict improvement (`if distance < best_distance`);
corrupt files are skipped. -/
noncomputable def scanFold (q : DV ℚ) :
    List (String × StoredFile) → Option Registration × EReal →
    Option (Option Registration × EReal)
  | [], acc => some acc
  | (_, .corrupt) :: rest, acc => scanFold q rest acc
  | (_, .parsed v) :: rest, acc =>
    match asRegistration v with
    | none => none
    | some r =>
      let d := calculate_template_distance q r.normalizedDistances
      if d < acc.2 then scanFold q rest (some r, d)
      else scanFold q rest acc

/-- Observable outcomes of `recognize_palm`. -/
inductive RecResult : Type
  | templateFailed : RecResult
  | notRegistered : String → RecResult
  | noPalms : RecResult
  | matched : String → EReal → RecResult
  | noMatch : EReal → RecResult

/-- After the loop: `if best_match and best_distance <= threshold`, update
`lastUsed` on the matched record and save it; otherwise report a non-match
and write nothing. -/
noncomputable def runScan (st : StoreState) (q : DV ℚ)
    (files : List (String × StoredFile)) (t : ℝ) (now : String) :
    Option (RecResult × StoreState) :=
  match scanFold q files (none, ⊤) with
  | none => none
  | some (some r, bd) =>
    if bd ≤ (t : EReal) then
      some (.matched r.phoneNumber bd,
            writeFile st r.phoneNumber (.parsed (recordVal
              { r with lastUsed := now })))
    else some (.noMatch bd, st)
  | some (none, bd) => some (.noMatch bd, st)

/-- The function `recognize_palm`: targeted mode checks only `{phone}.json` and fails
early when it is absent; open-set mode scans every file and fails early
when the store is empty. -/
noncomputable def recognize_palm (st : StoreState) (tmpl : Option Template)
    (filter : Option String) (t : ℝ) (now : String) :
    Option (RecResult × StoreState) :=
  match tmpl with
  | none => some (.templateFailed, st)
  | some tq =>
    match filter with
    | some p =>
      match alook st p with
      | some f => runScan st tq.normalized [(p, f)] t now
      | none => some (.notRegistered p, st)
    | none =>
      match st with
      | [] => some (.noPalms, st)
      | _ => runScan st tq.normalized st t now

/-- A store directory holding exactly the given registration records. -/
def mkState (rs : List Registration) : StoreState :=
  rs.map (fun r => (r.phoneNumber, StoredFile.parsed (recordVal r)))

/-- Modelled from the spec (§4.4 `search`, claim C1): the best distance is
the minimum of the per-candidate distances. -/
noncomputable def bestDist (q : DV ℚ) (rs : List Registration) : EReal :=
  (rs.map (fun r => calculate_template_distance q r.normalizedDistances)).foldr min ⊤

/-- Modelled from the spec (§4.4 `search`, claim C1): the first candidate
attaining the given distance (ties broken by enumeration order). -/
noncomputable def firstAtMin (q : DV ℚ) (m : EReal) :
    List Registration → Option Registration
  | [] => none
  | r :: rest =>
    if calculate_template_distance q r.normalizedDistances = m then some r
    else firstAtMin q m rest

/-- The comparison loop restricted to well-formed record files (used to
reason about `scanFold`). -/
noncomputable def scanLoop (q : DV ℚ) :
    List Registration → Option Registration × EReal → Option Registration × EReal
  | [], acc => acc
  | r :: rest, acc =>
    let d := calculate_template_distance q r.normalizedDistances
    if d < acc.2 then scanLoop q rest (some r, d)
    else scanLoop q rest acc

/-- Whether a stored file fails to parse. -/
def isCorrupt : StoredFile → Bool
  | .corrupt => true
  | .parsed _ => false

/-- A concrete template used as a test fixture. -/
def fixT : Template := ⟨"sig", [("k", 1)], [("k", 1)]⟩

/-- A concrete registration record used as a test fixture. -/
def fixReg : Registration := ⟨"555-1111", "sig", [("k", 1)], [("k", 1)], "t0", "t0"⟩

/-! # Helper lemmas -/

theorem alook_map_snd {α β : Type} (f : α → β) (d : List (String × α)) (k : String) :
    alook (d.map (fun e => (e.1, f e.2))) k = (alook d k).map f := by
  induction d with
  | nil => rfl
  | cons e rest ih =>
    by_cases he : e.1 = k
    · simp [alook, he]
    · simp [alook, he, ih]

theorem alook_map_div (d : DV ℚ) (v : ℚ) (k : String) :
    alook (d.map (fun e => (e.1, e.2 / v))) k = (alook d k).map (fun x => x / v) := by
  induction d with
  | nil => rfl
  | cons e rest ih =>
    by_cases he : e.1 = k
    · simp [alook, he]
    · simp [alook, he, ih]

theorem alook_append_not_mem (st : StoreState) (p : String) (f : StoredFile)
    (h : alook st p = none) : alook (st ++ [(p, f)]) p = some f := by
  induction st with
  | nil => simp [alook]
  | cons e rest ih =>
    by_cases he : e.1 = p
    · simp [alook, he] at h
    · simp only [alook, he, if_neg, List.cons_append] at h ⊢
      simpa [he] using ih (by simpa [he] using h)

theorem alook_mapWrite (st : StoreState) (p : String) (f : StoredFile)
    (h : (alook st p).isSome) :
    alook (st.map (fun e => if e.1 = p then (p, f) else e)) p = some f := by
  induction st with
  | nil => simp [alook] at h
  | cons e rest ih =>
    by_cases he : e.1 = p
    · simp only [List.map_cons]
      rw [if_pos he]
      simp [alook]
    · have h' : (alook rest p).isSome := by simpa [alook, he] using h
      simp only [List.map_cons]
      rw [if_neg he]
      simp [alook, he, ih h']

theorem alook_writeFile_self (st : StoreState) (p : String) (f : StoredFile) :
    alook (writeFile st p f) p = some f := by
  unfold writeFile
  by_cases h : (alook st p).isSome
  · rw [if_pos h]; exact alook_mapWrite st p f h
  · rw [if_neg h]
    exact alook_append_not_mem st p f (Option.not_isSome_iff_eq_none.mp h)

theorem alook_removeFile (st : StoreState) (p : String) :
    alook (removeFile st p) p = none := by
  induction st with
  | nil => rfl
  | cons e rest ih =>
    by_cases he : e.1 = p
    · simpa [removeFile, List.filter_cons, he] using ih
    · simpa [removeFile, List.filter_cons, he, alook] using ih

theorem summaryOf_recordVal (r : Registration) :
    summaryOf (recordVal r) =
      some (.vstr r.phoneNumber, .vstr r.registeredAt, .vstr r.lastUsed) := rfl

theorem list_rp_filter (st : StoreState) :
    list_registered_palms st =
      list_registered_palms (st.filter (fun e => !isCorrupt e.2)) := by
  induction st with
  | nil => rfl
  | cons e rest ih =>
    rcases e with ⟨n, f⟩
    cases f with
    | corrupt => simpa [list_registered_palms, isCorrupt, List.filter_cons] using ih
    | parsed v =>
      cases hs : summaryOf v <;>
        simp [list_registered_palms, isCorrupt, List.filter_cons, hs, ih]

theorem list_rp_no_p (st : StoreState) (p : String)
    (h : ∀ n f, (n, f) ∈ st → n ≠ p →
      ∃ r : Registration, f = .parsed (recordVal r) ∧ r.phoneNumber = n) :
    ∃ l, list_registered_palms (removeFile st p) = some l ∧
      ∀ s ∈ l, s.1 ≠ PyVal.vstr p := by
  induction st with
  | nil => exact ⟨[], rfl, by simp⟩
  | cons e rest ih =>
    rcases e with ⟨n, f⟩
    have hrest := ih (fun n' f' hm hne => h n' f' (List.mem_cons_of_mem _ hm) hne)
    by_cases hn : n = p
    · simpa [removeFile, List.filter_cons, hn] using hrest
    · obtain ⟨r, rfl, hphone⟩ := h n f (List.mem_cons_self _ _) hn
      obtain ⟨l, hl, hall⟩ := hrest
      refine ⟨(.vstr r.phoneNumber, .vstr r.registeredAt, .vstr r.lastUsed) :: l, ?_, ?_⟩
      · have hkeep : removeFile ((n, StoredFile.parsed (recordVal r)) :: rest) p =
            (n, StoredFile.parsed (recordVal r)) :: removeFile rest p := by
          simp [removeFile, List.filter_cons, hn]
        rw [hkeep]
        simp [list_registered_palms, summaryOf_recordVal, hl]
      · intro s hs
        rcases List.mem_cons.mp hs with hhead | htail
        · subst hhead
          simp only [ne_eq, PyVal.vstr.injEq]
          rw [hphone]; exact hn
        · exact hall s htail

/-! # Claims C3, C10, C4 -/

/-- C3: registering an identity that already has a parseable registration
record fails with the duplicate error, performs no write and leaves the
store byte-for-byte unchanged; registering an identity with no stored
record persists a new record carrying the current time as both
`registeredAt` and `lastUsed`. -/
theorem register_palm_correct (st : StoreState) (p : String) (r : Registration)
    (t : Template) (now : String) :
    (alook st p = some (.parsed (recordVal r)) →
      register_palm st p (some t) now = (.alreadyRegistered, st)) ∧
    (alook st p = none →
      register_palm st p (some t) now =
        (.success, writeFile st p (.parsed (recordVal
          ⟨p, t.signature, t.normalized, t.raw, now, now⟩)))) := by
  constructor
  · intro h; simp [register_palm, load_palm_data, h, truthy, recordVal]
  · intro h; simp [register_palm, load_palm_data, h, truthy]

theorem register_palm_correct_witness :
    register_palm [("555-1111", .parsed (recordVal fixReg))] "555-1111"
        (some fixT) "t1" =
      (.alreadyRegistered, [("555-1111", .parsed (recordVal fixReg))]) ∧
    register_palm [] "555-1111" (some fixT) "t1" =
      (.success, writeFile [] "555-1111" (.parsed (recordVal
        ⟨"555-1111", fixT.signature, fixT.normalized, fixT.raw, "t1", "t1"⟩))) :=
  ⟨(register_palm_correct _ "555-1111" fixReg fixT "t1").1 (by simp [alook]),
   (register_palm_correct _ "555-1111" fixReg fixT "t1").2 rfl⟩

/-- C10: duplicate protection follows the truthiness of the parsed record,
not file existence: a file that parses to a falsy JSON value does not
trigger the duplicate error and is overwritten by a fresh registration. -/
theorem register_palm_overwrites_falsy (st : StoreState) (p : String)
    (v : PyVal) (t : Template) (now : String)
    (h1 : alook st p = some (.parsed v)) (h2 : truthy v = false) :
    register_palm st p (some t) now =
      (.success, writeFile st p (.parsed (recordVal
        ⟨p, t.signature, t.normalized, t.raw, now, now⟩))) ∧
    alook (writeFile st p (.parsed (recordVal
        ⟨p, t.signature, t.normalized, t.raw, now, now⟩))) p =
      some (.parsed (recordVal ⟨p, t.signature, t.normalized, t.raw, now, now⟩)) :=
  ⟨by simp [register_palm, load_palm_data, h1, h2], alook_writeFile_self _ _ _⟩

theorem register_palm_overwrites_falsy_witness :
    register_palm [("555-3333", .parsed (.vobj []))] "555-3333" (some fixT) "t1" =
      (.success, writeFile [("555-3333", .parsed (.vobj []))] "555-3333"
        (.parsed (recordVal
          ⟨"555-3333", fixT.signature, fixT.normalized, fixT.raw, "t1", "t1"⟩))) ∧
    alook (writeFile [("555-3333", .parsed (.vobj []))] "555-3333"
        (.parsed (recordVal
          ⟨"555-3333", fixT.signature, fixT.normalized, fixT.raw, "t1", "t1"⟩)))
        "555-3333" =
      some (.parsed (recordVal
        ⟨"555-3333", fixT.signature, fixT.normalized, fixT.raw, "t1", "t1"⟩)) :=
  register_palm_overwrites_falsy _ "555-3333" (.vobj []) fixT "t1"
    (by simp [alook]) rfl

/-- C4: loading a corrupt record deletes the file and returns `None`
without propagating the parse error; the identity is then absent from the
store and from a subsequent listing, and a listing never aborts on a file
it cannot parse (corrupt files are simply skipped). -/
theorem load_corrupt_self_heals (st : StoreState) (p : String)
    (h1 : alook st p = some .corrupt)
    (h2 : ∀ n f, (n, f) ∈ st → n ≠ p →
      ∃ r : Registration, f = .parsed (recordVal r) ∧ r.phoneNumber = n) :
    load_palm_data st p = (.vnull, removeFile st p) ∧
    alook (removeFile st p) p = none ∧
    (∃ l, list_registered_palms (removeFile st p) = some l ∧
      ∀ s ∈ l, s.1 ≠ PyVal.vstr p) ∧
    (∀ st₀ : StoreState,
      list_registered_palms st₀ =
        list_registered_palms (st₀.filter (fun e => !isCorrupt e.2))) :=
  ⟨by simp [load_palm_data, h1], alook_removeFile st p,
   list_rp_no_p st p h2, list_rp_filter⟩

theorem load_corrupt_self_heals_witness :
    load_palm_data
        [("555-2222", .corrupt), ("555-1111", .parsed (recordVal fixReg))]
        "555-2222" =
      (.vnull, removeFile
        [("555-2222", .corrupt), ("555-1111", .parsed (recordVal fixReg))]
        "555-2222") ∧
    alook (removeFile
        [("555-2222", .corrupt), ("555-1111", .parsed (recordVal fixReg))]
        "555-2222") "555-2222" = none ∧
    (∃ l, list_registered_palms (removeFile
        [("555-2222", .corrupt), ("555-1111", .parsed (recordVal fixReg))]
        "555-2222") = some l ∧
      ∀ s ∈ l, s.1 ≠ PyVal.vstr "555-2222") ∧
    (∀ st₀ : StoreState,
      list_registered_palms st₀ =
        list_registered_palms (st₀.filter (fun e => !isCorrupt e.2))) := by
  refine load_corrupt_self_heals _ _ (by simp [alook]) ?_
  intro n f hm hne
  simp only [List.mem_cons, List.not_mem_nil, or_false] at hm
  rcases hm with hm | hm
  · cases hm; exact absurd rfl hne
  · cases hm; exact ⟨fixReg, rfl, rfl⟩

/-! # Claims C5, C6, C7 -/

/-- C5: whenever each of the 5 fixed knuckle landmarks has confidence at
least 0.5, building the distance vector succeeds and yields exactly 10
entries, one per unordered pair of knuckle points, each keyed canonically
as `min(name1,name2)_max(name1,name2)` in lexical order. -/
theorem build_knuckle_distances_ten (kp : Fin 21 → ℝ × ℝ) (conf : Fin 21 → ℝ)
    (h : ∀ ni ∈ knuckle_indices, (1:ℝ)/2 ≤ conf ni.2) :
    ∃ dv, build_knuckle_distances kp conf = some dv ∧
      keysOf dv =
        ["index_knuckle_wrist", "middle_knuckle_wrist", "ring_knuckle_wrist",
         "pinky_knuckle_wrist", "index_knuckle_middle_knuckle",
         "index_knuckle_ring_knuckle", "index_knuckle_pinky_knuckle",
         "middle_knuckle_ring_knuckle", "middle_knuckle_pinky_knuckle",
         "pinky_knuckle_ring_knuckle"] ∧
      dv.length = 10 := by
  have h0 := h ("wrist", 0) (by simp [knuckle_indices])
  have h1 := h ("index_knuckle", 5) (by simp [knuckle_indices])
  have h2 := h ("middle_knuckle", 9) (by simp [knuckle_indices])
  have h3 := h ("ring_knuckle", 13) (by simp [knuckle_indices])
  have h4 := h ("pinky_knuckle", 17) (by simp [knuckle_indices])
  have hmin : (1:ℝ)/2 ≤ pyListMin (knuckle_indices.map (fun ni => conf ni.2)) := by
    simp only [knuckle_indices, List.map_cons, List.map_nil, pyListMin, List.foldl]
    exact le_min (le_min (le_min (le_min h0 h1) h2) h3) h4
  refine ⟨calculate_knuckle_distances kp, ?_, ?_, rfl⟩
  · rw [build_knuckle_distances, if_neg (not_lt.mpr hmin)]
  · simp [keysOf, calculate_knuckle_distances, knuckle_indices, pairsOf,
      pymin, pymax]
    decide

theorem build_knuckle_distances_ten_witness :
    ∃ dv, build_knuckle_distances (fun _ => ((0:ℝ), (0:ℝ))) (fun _ => (1:ℝ)) = some dv ∧
      keysOf dv =
        ["index_knuckle_wrist", "middle_knuckle_wrist", "ring_knuckle_wrist",
         "pinky_knuckle_wrist", "index_knuckle_middle_knuckle",
         "index_knuckle_ring_knuckle", "index_knuckle_pinky_knuckle",
         "middle_knuckle_ring_knuckle", "middle_knuckle_pinky_knuckle",
         "pinky_knuckle_ring_knuckle"] ∧
      dv.length = 10 :=
  build_knuckle_distances_ten _ _ (fun _ _ => by norm_num)

/-- C6 (counterexample): with a zero value at the reference key,
normalization does not produce a vector carrying `1.0` at the reference
key — the division by the zero reference distance faults. -/
theorem normalize_distances_zero_ref_cex :
    ¬ ∃ nd, normalize_distances [("middle_knuckle_wrist", (0:ℚ))] = some nd ∧
      alook nd "middle_knuckle_wrist" = some 1 := by
  rintro ⟨nd, h, -⟩
  simp [normalize_distances, alook] at h

/-- C6 (amended): for every raw-distance mapping containing the reference
key `"middle_knuckle_wrist"` with a nonzero value, normalization succeeds,
divides every entry by the reference value, and yields exactly `1.0` at
the reference key. -/
theorem normalize_distances_ref_one (d : DV ℚ) (v : ℚ)
    (h1 : alook d "middle_knuckle_wrist" = some v) (h2 : v ≠ 0) :
    normalize_distances d = some (d.map (fun e => (e.1, e.2 / v))) ∧
    alook (d.map (fun e => (e.1, e.2 / v))) "middle_knuckle_wrist" = some 1 := by
  constructor
  · cases d with
    | nil => simp [alook] at h1
    | cons e rest =>
      have hs : (alook (e :: rest) "middle_knuckle_wrist").isSome := by
        rw [h1]; rfl
      rcases e with ⟨k0, v0⟩
      simp [normalize_distances, hs, h1, h2]
  · rw [alook_map_div, h1]
    simp [div_self h2]

theorem normalize_distances_ref_one_witness :
    normalize_distances [("middle_knuckle_wrist", (2:ℚ)), ("a", 4)] =
      some ([("middle_knuckle_wrist", (2:ℚ)), ("a", 4)].map
        (fun e => (e.1, e.2 / 2))) ∧
    alook ([("middle_knuckle_wrist", (2:ℚ)), ("a", 4)].map
        (fun e => (e.1, e.2 / 2))) "middle_knuckle_wrist" = some 1 :=
  normalize_distances_ref_one _ 2 (by simp [alook]) (by norm_num)

/-- C7: the template distance is the Euclidean distance over exactly the
intersection of the key sets of the two vectors, and `+infinity` when that
intersection is empty. -/
theorem calculate_template_distance_spec (d1 d2 : DV ℚ) :
    calculate_template_distance d1 d2 = spec_intersection_dist d1 d2 := by
  unfold calculate_template_distance spec_intersection_dist
  have hnd : (((keysOf d1).dedup).filter (fun k => k ∈ keysOf d2)).Nodup :=
    ((keysOf d1).nodup_dedup).filter _
  have hfin : (((keysOf d1).dedup).filter (fun k => k ∈ keysOf d2)).toFinset
      = (keysOf d1).toFinset ∩ (keysOf d2).toFinset := by
    ext k
    simp [List.mem_filter, List.mem_dedup, List.mem_toFinset, Finset.mem_inter]
  by_cases hc : ((keysOf d1).dedup).filter (fun k => k ∈ keysOf d2) = []
  · rw [if_pos hc, if_pos (by rw [← hfin, hc]; simp)]
  · rw [if_neg hc, if_neg (by rw [← hfin, List.toFinset_eq_empty_iff]; exact hc)]
    rw [← hfin, List.sum_toFinset _ hnd]

/-! # Claims C2, C8 -/

instance : IsTrans (String × ℚ) pairLe :=
  ⟨fun a b c hab hbc => by
    rcases hab with h | ⟨h, h2⟩ <;> rcases hbc with h' | ⟨h', h2'⟩
    · exact Or.inl (lt_trans h h')
    · exact Or.inl (h' ▸ h)
    · exact Or.inl (h ▸ h')
    · exact Or.inr ⟨h.trans h', le_trans h2 h2'⟩⟩

instance : IsTotal (String × ℚ) pairLe :=
  ⟨fun a b => by
    rcases lt_trichotomy a.1 b.1 with h | h | h
    · exact Or.inl (Or.inl h)
    · rcases le_total a.2 b.2 with h2 | h2
      · exact Or.inl (Or.inr ⟨h, h2⟩)
      · exact Or.inr (Or.inr ⟨h.symm, h2⟩)
    · exact Or.inr (Or.inl h)⟩

instance : IsAntisymm (String × ℚ) pairLe :=
  ⟨fun a b hab hba => by
    rcases hab with h | ⟨h, h2⟩ <;> rcases hba with h' | ⟨h', h2'⟩
    · exact absurd h' (lt_asymm h)
    · exact absurd (h' ▸ h) (lt_irrefl _)
    · exact absurd (h ▸ h') (lt_irrefl _)
    · exact Prod.ext h (le_antisymm h2 h2')⟩

instance : IsTrans (String × ℚ) keyLe := ⟨fun _ _ _ h h' => le_trans h h'⟩

instance : IsTotal (String × ℚ) keyLe := ⟨fun a b => le_total a.1 b.1⟩

instance : IsAntisymm (String × ℚ) (fun a b : String × ℚ => a.1 < b.1) :=
  ⟨fun _ _ h h' => absurd h' (lt_asymm h)⟩

theorem eq_of_perm_sorted_keys (l1 l2 : DV ℚ) (hp : l1.Perm l2)
    (hn : (l1.map Prod.fst).Nodup)
    (hs1 : l1.Sorted keyLe) (hs2 : l2.Sorted keyLe) : l1 = l2 := by
  have hn1 : l1.Pairwise (fun a b : String × ℚ => a.1 ≠ b.1) :=
    List.pairwise_map.mp hn
  have hn2 : l2.Pairwise (fun a b : String × ℚ => a.1 ≠ b.1) :=
    List.pairwise_map.mp ((hp.map Prod.fst).nodup_iff.mp hn)
  have hs1' : l1.Sorted (fun a b : String × ℚ => a.1 < b.1) :=
    (List.Pairwise.and hs1 hn1).imp (fun h => lt_of_le_of_ne h.1 h.2)
  have hs2' : l2.Sorted (fun a b : String × ℚ => a.1 < b.1) :=
    (List.Pairwise.and hs2 hn2).imp (fun h => lt_of_le_of_ne h.1 h.2)
  exact List.eq_of_perm_of_sorted hp hs1' hs2'

/-- C2: for every mapping (unique keys), the derived signature is exactly
the first 16 hexadecimal characters of the SHA-256 hash of the entries
sorted by key ascending, rendered as `"key:value"` with 6 decimal digits
and joined with `"|"`. -/
theorem generate_palm_signature_spec (d : DV ℚ)
    (h : (d.map Prod.fst).Nodup) :
    generate_palm_signature d = spec_signature d := by
  have hsort : List.insertionSort pairLe d = List.insertionSort keyLe d := by
    apply eq_of_perm_sorted_keys
    · exact (List.perm_insertionSort pairLe d).trans
        (List.perm_insertionSort keyLe d).symm
    · exact ((List.perm_insertionSort pairLe d).map Prod.fst).nodup_iff.mpr h
    · exact (List.sorted_insertionSort pairLe d).imp
        (fun hab => by
          rcases hab with h' | ⟨h', _⟩
          · exact le_of_lt h'
          · exact le_of_eq h')
    · exact List.sorted_insertionSort keyLe d
  unfold generate_palm_signature spec_signature distance_string
  rw [hsort]

theorem generate_palm_signature_spec_witness :
    generate_palm_signature [("b", (1:ℚ)), ("a", 2)] =
      spec_signature [("b", (1:ℚ)), ("a", 2)] :=
  generate_palm_signature_spec _ (by decide)

/-- C8 (counterexample): changing the single value of a mapping from `0`
to `10⁻⁷` does not change the signature — both render as `0.000000` at six
decimal digits, so the hashed string is identical. -/
theorem generate_palm_signature_value_change_cex :
    (0:ℚ) ≠ 1/10000000 ∧
    generate_palm_signature [("a", (0:ℚ))] =
      generate_palm_signature [("a", (1/10000000:ℚ))] := by
  constructor
  · norm_num
  · have hrne0 : rne ((0:ℚ) * 1000000) = 0 := by
      unfold rne
      norm_num
    have hfl : ⌊(1/10 : ℚ)⌋ = 0 := by
      rw [Int.floor_eq_zero_iff]
      constructor <;> norm_num
    have hrne7 : rne ((1/10000000:ℚ) * 1000000) = 0 := by
      rw [show ((1/10000000:ℚ) * 1000000) = 1/10 by norm_num]
      unfold rne
      rw [hfl]
      norm_num
    have hfmt0 : format6 (0:ℚ) = "0.000000" := by
      unfold format6
      rw [hrne0, if_neg (by norm_num : ¬ (0:ℚ) < 0)]
      rfl
    have hfmt7 : format6 (1/10000000:ℚ) = "0.000000" := by
      unfold format6
      rw [hrne7, if_neg (by norm_num : ¬ (1/10000000:ℚ) < 0)]
      rfl
    have hds : distance_string [("a", (0:ℚ))] =
        distance_string [("a", (1/10000000:ℚ))] := by
      simp only [distance_string, List.insertionSort, List.orderedInsert,
        List.map_cons, List.map_nil, renderEntry]
      rw [hfmt0, hfmt7]
    unfold generate_palm_signature
    rw [hds]

/-- C8 (amended): the signature is a pure function of the (key, value)
content of the mapping — any permutation of the entries yields the same
signature; however, changing a single value need not change the signature
when the old and new values render identically at six decimal digits. -/
theorem generate_palm_signature_perm (l1 l2 : DV ℚ) (hp : l1.Perm l2) :
    generate_palm_signature l1 = generate_palm_signature l2 := by
  have hsort : List.insertionSort pairLe l1 = List.insertionSort pairLe l2 :=
    List.eq_of_perm_of_sorted
      ((List.perm_insertionSort pairLe l1).trans
        (hp.trans (List.perm_insertionSort pairLe l2).symm))
      (List.sorted_insertionSort pairLe l1)
      (List.sorted_insertionSort pairLe l2)
  unfold generate_palm_signature distance_string
  rw [hsort]

theorem generate_palm_signature_perm_witness :
    generate_palm_signature [("a", (1:ℚ)), ("b", 2)] =
      generate_palm_signature [("b", (2:ℚ)), ("a", 1)] :=
  generate_palm_signature_perm _ _ (by decide)

/-! # Scan lemmas for claims C1, C9 -/

theorem asDVq_dvVal (d : DV ℚ) : asDVq (dvVal d) = some d := by
  induction d with
  | nil => rfl
  | cons e rest ih =>
    simp only [dvVal] at ih ⊢
    simp [asDVq, ih]

theorem asRegistration_recordVal (r : Registration) :
    asRegistration (recordVal r) = some r := by
  obtain ⟨p, s, nd, rd, ra, lu⟩ := r
  simp only [recordVal, asRegistration]
  rw [asDVq_dvVal, asDVq_dvVal]

theorem scanFold_mkState (q : DV ℚ) (rs : List Registration)
    (acc : Option Registration × EReal) :
    scanFold q (mkState rs) acc = some (scanLoop q rs acc) := by
  induction rs generalizing acc with
  | nil => rfl
  | cons r rest ih =>
    simp only [mkState, List.map_cons] at *
    by_cases hd : calculate_template_distance q r.normalizedDistances < acc.2
    · simp [scanFold, scanLoop, asRegistration_recordVal, hd, ih]
    · simp [scanFold, scanLoop, asRegistration_recordVal, hd, ih]

theorem scanLoop_mem (q : DV ℚ) (rs : List Registration) :
    ∀ (b : Option Registration) (bd : EReal) (r : Registration),
      (scanLoop q rs (b, bd)).1 = some r → b = some r ∨ r ∈ rs := by
  induction rs with
  | nil => exact fun b bd r h => Or.inl h
  | cons r' rest ih =>
    intro b bd r h
    by_cases hd : calculate_template_distance q r'.normalizedDistances < bd
    · rw [scanLoop] at h
      rw [if_pos hd] at h
      rcases ih (some r') _ r h with h' | h'
      · exact Or.inr (Option.some.inj h' ▸ List.mem_cons_self r' rest)
      · exact Or.inr (List.mem_cons_of_mem _ h')
    · rw [scanLoop] at h
      rw [if_neg hd] at h
      rcases ih b bd r h with h' | h'
      · exact Or.inl h'
      · exact Or.inr (List.mem_cons_of_mem _ h')

theorem scanLoop_spec (q : DV ℚ) (rs : List Registration) :
    ∀ (b : Option Registration) (bd : EReal),
      (bestDist q rs < bd →
        scanLoop q rs (b, bd) = (firstAtMin q (bestDist q rs) rs, bestDist q rs)) ∧
      (¬ bestDist q rs < bd → scanLoop q rs (b, bd) = (b, bd)) := by
  induction rs with
  | nil =>
    intro b bd
    constructor
    · intro h
      simp only [bestDist, List.map_nil, List.foldr_nil] at h
      exact absurd h not_top_lt
    · intro _; rfl
  | cons r rest ih =>
    intro b bd
    have hbest : bestDist q (r :: rest) =
        min (calculate_template_distance q r.normalizedDistances)
          (bestDist q rest) := by
      simp [bestDist]
    constructor
    · intro h
      by_cases hdlt : calculate_template_distance q r.normalizedDistances < bd
      · rw [scanLoop, if_pos hdlt]
        by_cases hm : bestDist q rest <
            calculate_template_distance q r.normalizedDistances
        · have hmin : bestDist q (r :: rest) = bestDist q rest := by
            rw [hbest]; exact min_eq_right (le_of_lt hm)
          rw [hmin, (ih (some r) _).1 hm, firstAtMin, if_neg (ne_of_gt hm)]
        · have hmin : bestDist q (r :: rest) =
              calculate_template_distance q r.normalizedDistances := by
            rw [hbest]; exact min_eq_left (not_lt.mp hm)
          rw [hmin, (ih (some r) _).2 hm, firstAtMin, if_pos rfl]
      · rw [scanLoop, if_neg hdlt]
        rw [hbest] at h
        have hm' : bestDist q rest < bd := by
          rcases min_lt_iff.mp h with h' | h'
          · exact absurd h' hdlt
          · exact h'
        have hmlt : bestDist q rest <
            calculate_template_distance q r.normalizedDistances :=
          lt_of_lt_of_le hm' (not_lt.mp hdlt)
        have hmin : bestDist q (r :: rest) = bestDist q rest := by
          rw [hbest]; exact min_eq_right (le_of_lt hmlt)
        rw [hmin, (ih b bd).1 hm', firstAtMin, if_neg (ne_of_gt hmlt)]
    · intro h
      rw [hbest] at h
      have hd' : ¬ calculate_template_distance q r.normalizedDistances < bd :=
        fun hc => h (lt_of_le_of_lt (min_le_left _ _) hc)
      have hm' : ¬ bestDist q rest < bd :=
        fun hc => h (lt_of_le_of_lt (min_le_right _ _) hc)
      rw [scanLoop, if_neg hd']
      exact (ih b bd).2 hm'

theorem firstAtMin_isSome (q : DV ℚ) (rs : List Registration)
    (h : bestDist q rs < ⊤) :
    ∃ r, firstAtMin q (bestDist q rs) rs = some r ∧ r ∈ rs := by
  induction rs with
  | nil =>
    simp only [bestDist, List.map_nil, List.foldr_nil] at h
    exact absurd h not_top_lt
  | cons r rest ih =>
    have hbest : bestDist q (r :: rest) =
        min (calculate_template_distance q r.normalizedDistances)
          (bestDist q rest) := by
      simp [bestDist]
    by_cases hc : calculate_template_distance q r.normalizedDistances =
        bestDist q (r :: rest)
    · exact ⟨r, by rw [firstAtMin, if_pos hc], List.mem_cons_self r rest⟩
    · have heq : bestDist q (r :: rest) = bestDist q rest := by
        rcases min_cases (calculate_template_distance q r.normalizedDistances)
            (bestDist q rest) with ⟨he, _⟩ | ⟨he, _⟩
        · exact absurd (hbest.trans he).symm hc
        · exact hbest.trans he
      have hne : calculate_template_distance q r.normalizedDistances ≠
          bestDist q rest := by
        intro he
        exact hc (by rw [hbest, ← he, min_self])
      obtain ⟨r', hr', hmem⟩ := ih (heq ▸ h)
      refine ⟨r', ?_, List.mem_cons_of_mem _ hmem⟩
      rw [heq, firstAtMin, if_neg hne]
      exact hr'

theorem firstAtMin_mem (q : DV ℚ) (m : EReal) (rs : List Registration)
    (r : Registration) (h : firstAtMin q m rs = some r) : r ∈ rs := by
  induction rs with
  | nil => simp [firstAtMin] at h
  | cons r' rest ih =>
    rw [firstAtMin] at h
    by_cases hc : calculate_template_distance q r'.normalizedDistances = m
    · rw [if_pos hc] at h
      exact (Option.some.inj h) ▸ List.mem_cons_self r' rest
    · rw [if_neg hc] at h
      exact List.mem_cons_of_mem _ (ih h)

theorem alook_mkState (rs : List Registration) (p : String) (f : StoredFile)
    (h : alook (mkState rs) p = some f) :
    ∃ r, r ∈ rs ∧ f = .parsed (recordVal r) := by
  induction rs with
  | nil => simp [mkState, alook] at h
  | cons r rest ih =>
    simp only [mkState, List.map_cons] at h
    rw [alook] at h
    by_cases he : r.phoneNumber = p
    · rw [if_pos he] at h
      exact ⟨r, List.mem_cons_self _ _, (Option.some.inj h).symm⟩
    · rw [if_neg he] at h
      obtain ⟨r', hm, hf⟩ := ih h
      exact ⟨r', List.mem_cons_of_mem _ hm, hf⟩

/-! # Claims C1, C9 -/

/-- C1: open-set recognition over a non-empty store of parseable records
computes the distance from the query's normalized distances to every
record, retains the minimum (`bestDist`) with ties broken by enumeration
order (`firstAtMin`), and reports a match exactly when that best distance
is at most the caller-supplied threshold. -/
theorem recognize_open_set_correct (rs : List Registration) (tq : Template)
    (t : ℝ) (now : String) (h : rs ≠ []) :
    (¬ bestDist tq.normalized rs ≤ (t : EReal) →
      recognize_palm (mkState rs) (some tq) none t now =
        some (.noMatch (bestDist tq.normalized rs), mkState rs)) ∧
    (bestDist tq.normalized rs ≤ (t : EReal) →
      ∃ r, firstAtMin tq.normalized (bestDist tq.normalized rs) rs = some r ∧
        recognize_palm (mkState rs) (some tq) none t now =
          some (.matched r.phoneNumber (bestDist tq.normalized rs),
            writeFile (mkState rs) r.phoneNumber
              (.parsed (recordVal { r with lastUsed := now })))) := by
  obtain ⟨r0, rest, rfl⟩ := List.exists_cons_of_ne_nil h
  have hrec : recognize_palm (mkState (r0 :: rest)) (some tq) none t now =
      runScan (mkState (r0 :: rest)) tq.normalized (mkState (r0 :: rest)) t now := by
    simp [recognize_palm, mkState]
  constructor
  · intro hnot
    rw [hrec]
    by_cases hlt : bestDist tq.normalized (r0 :: rest) < ⊤
    · have hsl := (scanLoop_spec tq.normalized (r0 :: rest) none ⊤).1 hlt
      obtain ⟨r, hr, _⟩ := firstAtMin_isSome tq.normalized (r0 :: rest) hlt
      rw [hr] at hsl
      simp [runScan, scanFold_mkState, hsl, hnot]
    · have htop : bestDist tq.normalized (r0 :: rest) = ⊤ :=
        top_le_iff.mp (not_lt.mp hlt)
      have hnlt : ¬ bestDist tq.normalized (r0 :: rest) < ⊤ := by
        rw [htop]; exact lt_irrefl ⊤
      have hsl := (scanLoop_spec tq.normalized (r0 :: rest) none ⊤).2 hnlt
      rw [htop]
      simp [runScan, scanFold_mkState, hsl]
  · intro hle
    have hlt : bestDist tq.normalized (r0 :: rest) < ⊤ :=
      lt_of_le_of_lt hle (EReal.coe_lt_top t)
    have hsl := (scanLoop_spec tq.normalized (r0 :: rest) none ⊤).1 hlt
    obtain ⟨r, hr, _⟩ := firstAtMin_isSome tq.normalized (r0 :: rest) hlt
    rw [hr] at hsl
    refine ⟨r, hr, ?_⟩
    rw [hrec]
    simp [runScan, scanFold_mkState, hsl, hle]

theorem recognize_open_set_correct_witness :
    (¬ bestDist fixT.normalized [fixReg] ≤ ((0:ℝ) : EReal) →
      recognize_palm (mkState [fixReg]) (some fixT) none 0 "t1" =
        some (.noMatch (bestDist fixT.normalized [fixReg]), mkState [fixReg])) ∧
    (bestDist fixT.normalized [fixReg] ≤ ((0:ℝ) : EReal) →
      ∃ r, firstAtMin fixT.normalized (bestDist fixT.normalized [fixReg])
          [fixReg] = some r ∧
        recognize_palm (mkState [fixReg]) (some fixT) none 0 "t1" =
          some (.matched r.phoneNumber (bestDist fixT.normalized [fixReg]),
            writeFile (mkState [fixReg]) r.phoneNumber
              (.parsed (recordVal { r with lastUsed := "t1" })))) :=
  recognize_open_set_correct [fixReg] fixT 0 "t1" (List.cons_ne_nil _ _)

/-- C9: the pipeline writes to the store only on a positive match, and the
single record it writes is the matched registration with `lastUsed`
replaced by the current time and every other field unchanged; on any
non-match outcome the store is left exactly as it was. -/
theorem recognize_palm_frame (rs : List Registration) (tq : Template)
    (filter : Option String) (t : ℝ) (now : String) :
    ∃ res st', recognize_palm (mkState rs) (some tq) filter t now =
        some (res, st') ∧
      ((∀ p d, res ≠ .matched p d) → st' = mkState rs) ∧
      (∀ p d, res = .matched p d → ∃ r, r ∈ rs ∧ p = r.phoneNumber ∧
        d ≤ (t : EReal) ∧
        st' = writeFile (mkState rs) r.phoneNumber
          (.parsed (recordVal { r with lastUsed := now }))) := by
  cases filter with
  | none =>
    cases rs with
    | nil =>
      refine ⟨.noPalms, mkState [], by simp [recognize_palm, mkState], ?_, ?_⟩
      · intro _; rfl
      · intro p d hc; cases hc
    | cons r0 rest =>
      have hrec : recognize_palm (mkState (r0 :: rest)) (some tq) none t now =
          runScan (mkState (r0 :: rest)) tq.normalized (mkState (r0 :: rest))
            t now := by
        simp [recognize_palm, mkState]
      rcases hsl : scanLoop tq.normalized (r0 :: rest) (none, ⊤) with ⟨b, bd⟩
      cases b with
      | none =>
        refine ⟨.noMatch bd, mkState (r0 :: rest), ?_, fun _ => rfl, ?_⟩
        · rw [hrec]; simp [runScan, scanFold_mkState, hsl]
        · intro p d hc; cases hc
      | some r =>
        have hmem : r ∈ r0 :: rest := by
          rcases scanLoop_mem tq.normalized (r0 :: rest) none ⊤ r
              (by rw [hsl]) with h' | h'
          · exact Option.noConfusion h'
          · exact h'
        by_cases hbd : bd ≤ (t : EReal)
        · refine ⟨.matched r.phoneNumber bd,
            writeFile (mkState (r0 :: rest)) r.phoneNumber
              (.parsed (recordVal { r with lastUsed := now })), ?_, ?_, ?_⟩
          · rw [hrec]; simp [runScan, scanFold_mkState, hsl, hbd]
          · intro hne; exact absurd rfl (hne r.phoneNumber bd)
          · intro p d hpd
            injection hpd with h1 h2
            subst h1; subst h2
            exact ⟨r, hmem, rfl, hbd, rfl⟩
        · refine ⟨.noMatch bd, mkState (r0 :: rest), ?_, fun _ => rfl, ?_⟩
          · rw [hrec]; simp [runScan, scanFold_mkState, hsl, hbd]
          · intro p d hc; cases hc
  | some p =>
    cases hlk : alook (mkState rs) p with
    | none =>
      refine ⟨.notRegistered p, mkState rs, by simp [recognize_palm, hlk],
        fun _ => rfl, ?_⟩
      intro p' d hc; cases hc
    | some f =>
      obtain ⟨r, hmem, hf⟩ := alook_mkState rs p f hlk
      subst hf
      have hrec : recognize_palm (mkState rs) (some tq) (some p) t now =
          runScan (mkState rs) tq.normalized [(p, .parsed (recordVal r))]
            t now := by
        simp [recognize_palm, hlk]
      have hsf : scanFold tq.normalized [(p, .parsed (recordVal r))]
          (none, ⊤) = some (scanLoop tq.normalized [r] (none, ⊤)) := by
        by_cases hd : calculate_template_distance tq.normalized
            r.normalizedDistances < ⊤
        · simp [scanFold, scanLoop, asRegistration_recordVal, hd]
        · simp [scanFold, scanLoop, asRegistration_recordVal, hd]
      rcases hsl : scanLoop tq.normalized [r] (none, ⊤) with ⟨b, bd⟩
      cases b with
      | none =>
        refine ⟨.noMatch bd, mkState rs, ?_, fun _ => rfl, ?_⟩
        · rw [hrec]; simp [runScan, hsf, hsl]
        · intro p' d hc; cases hc
      | some r' =>
        have hr' : r' = r := by
          rcases scanLoop_mem tq.normalized [r] none ⊤ r' (by rw [hsl])
              with h' | h'
          · exact Option.noConfusion h'
          · simpa using h'
        rw [hr'] at hsl
        by_cases hbd : bd ≤ (t : EReal)
        · refine ⟨.matched r.phoneNumber bd,
            writeFile (mkState rs) r.phoneNumber
              (.parsed (recordVal { r with lastUsed := now })), ?_, ?_, ?_⟩
          · rw [hrec]; simp [runScan, hsf, hsl, hbd]
          · intro hne; exact absurd rfl (hne r.phoneNumber bd)
          · intro p' d hpd
            injection hpd with h1 h2
            subst h1; subst h2
            exact ⟨r, hmem, rfl, hbd, rfl⟩
        · refine ⟨.noMatch bd, mkState rs, ?_, fun _ => rfl, ?_⟩
          · rw [hrec]; simp [runScan, hsf, hsl, hbd]
          · intro p' d hc; cases hc

theorem recognize_palm_frame_witness :
    ∃ res st', recognize_palm (mkState [fixReg]) (some fixT) none 0 "t1" =
        some (res, st') ∧
      ((∀ p d, res ≠ .matched p d) → st' = mkState [fixReg]) ∧
      (∀ p d, res = .matched p d → ∃ r, r ∈ [fixReg] ∧ p = r.phoneNumber ∧
        d ≤ ((0:ℝ) : EReal) ∧
        st' = writeFile (mkState [fixReg]) r.phoneNumber
          (.parsed (recordVal { r with lastUsed := "t1" }))) :=
  recognize_palm_frame [fixReg] fixT none 0 "t1"

end Palm
